import Mathlib

/-!
Verification development for the ColorWallpaper generator
(`src/ColorWallpaper.py`).

Modelling conventions:
* Python floats are modelled by exact rationals (`ℚ`); every float value
  that the verified claims depend on is exactly representable, and every
  comparison the code performs is against exactly representable values.
* Python integers are modelled by `ℤ` (or `ℕ` for values known
  non-negative, such as the 8-bit RGB components).
* Python strings are modelled by `List Char`.
* A call that raises an exception is modelled by an `Option`-valued
  result, `none` meaning the exception.
* The glyph table `font` and the color-name tables live in `data.py`,
  which is not part of the sources; they are taken as parameters or
  modelled from the spec where a claim needs them.
-/

namespace ColorWallpaper

/-- Truncation toward zero: the behaviour of Python's `int(...)` applied to
a float.  For a rational this is `num / den` with `ℤ` T-division. -/
def pyTrunc (q : ℚ) : ℤ := q.num / (q.den : ℤ)

/-- Python's `x % 1.0` on a float `x`: the remainder takes the sign of the
divisor, so this is `x - ⌊x⌋`. -/
def pyMod1 (q : ℚ) : ℚ := q - ⌊q⌋

/-- Python's built-in `round(x)` to an integer: nearest integer, ties go to
the even neighbour. -/
def pyRound (q : ℚ) : ℤ :=
  if q - ⌊q⌋ < 1/2 then ⌊q⌋
  else if 1/2 < q - ⌊q⌋ then ⌊q⌋ + 1
  else if ⌊q⌋ % 2 = 0 then ⌊q⌋ else ⌊q⌋ + 1

/-- `colorsys.rgb_to_hsv` from the Python standard library (imported by
`ColorWallpaper.py` line 7), on exact rationals.  Result order `(h, s, v)`. -/
def rgb_to_hsv (r g b : ℚ) : ℚ × ℚ × ℚ :=
  let maxc := max r (max g b)
  let minc := min r (min g b)
  let rangec := maxc - minc
  let v := maxc
  if minc = maxc then (0, 0, v)
  else
    let s := rangec / maxc
    let rc := (maxc - r) / rangec
    let gc := (maxc - g) / rangec
    let bc := (maxc - b) / rangec
    let h := if r = maxc then bc - gc
             else if g = maxc then rc - bc
             else 2 + gc - rc
    (pyMod1 (h / 6), s, v)

/-- `colorsys.rgb_to_hls` from the Python standard library (imported by
`ColorWallpaper.py` line 7), on exact rationals.  Result order `(h, l, s)`:
lightness second, saturation third. -/
def rgb_to_hls (r g b : ℚ) : ℚ × ℚ × ℚ :=
  let maxc := max r (max g b)
  let minc := min r (min g b)
  let sumc := maxc + minc
  let rangec := maxc - minc
  let l := sumc / 2
  if minc = maxc then (0, l, 0)
  else
    let s := if l ≤ 1/2 then rangec / sumc else rangec / (2 - sumc)
    let rc := (maxc - r) / rangec
    let gc := (maxc - g) / rangec
    let bc := (maxc - b) / rangec
    let h := if r = maxc then bc - gc
             else if g = maxc then rc - bc
             else 2 + gc - rc
    (pyMod1 (h / 6), l, s)

/-- An 8-bit RGB triple. -/
abbrev RGB := ℕ × ℕ × ℕ

/-- `Color.hsv` (`ColorWallpaper.py` lines 112-116):
`h, s, v = rgb_to_hsv(*(comp/255 for comp in rgb))` followed by
`return int(h*360), int(s*100), int(v*100)`. -/
def Color.hsv (rgb : RGB) : ℤ × ℤ × ℤ :=
  let hsv := rgb_to_hsv ((rgb.1 : ℚ) / 255) ((rgb.2.1 : ℚ) / 255) ((rgb.2.2 : ℚ) / 255)
  (pyTrunc (hsv.1 * 360), pyTrunc (hsv.2.1 * 100), pyTrunc (hsv.2.2 * 100))

/-- `Color.hsl` (`ColorWallpaper.py` lines 118-122): the code destructures
`h, l, s = rgb_to_hls(...)` and returns
`int(h*360), int(s*100), int(l*100)`; so the second slot of the result is
built from the third slot of `rgb_to_hls` and vice versa. -/
def Color.hsl (rgb : RGB) : ℤ × ℤ × ℤ :=
  let hls := rgb_to_hls ((rgb.1 : ℚ) / 255) ((rgb.2.1 : ℚ) / 255) ((rgb.2.2 : ℚ) / 255)
  (pyTrunc (hls.1 * 360), pyTrunc (hls.2.2 * 100), pyTrunc (hls.2.1 * 100))

/-- The value `k = min(c, m, y, 1)` of `Color.cmyk`
(`ColorWallpaper.py` line 128). -/
def cmykK (rgb : RGB) : ℚ :=
  min (min (min (1 - (rgb.1 : ℚ) / 255) (1 - (rgb.2.1 : ℚ) / 255))
        (1 - (rgb.2.2 : ℚ) / 255)) 1

/-- `Color.cmyk` (`ColorWallpaper.py` lines 124-137).  The division by
`1.0 - k` is modelled as a checked operation: `none` would be the
`ZeroDivisionError` path. -/
def Color.cmyk (rgb : RGB) : Option (ℤ × ℤ × ℤ × ℤ) :=
  if cmykK rgb = 1 then some (0, 0, 0, 100)
  else if (1 : ℚ) - cmykK rgb = 0 then none
  else
    some (pyTrunc ((1 - (rgb.1 : ℚ) / 255 - cmykK rgb) / (1 - cmykK rgb) * 100),
          pyTrunc ((1 - (rgb.2.1 : ℚ) / 255 - cmykK rgb) / (1 - cmykK rgb) * 100),
          pyTrunc ((1 - (rgb.2.2 : ℚ) / 255 - cmykK rgb) / (1 - cmykK rgb) * 100),
          pyTrunc (cmykK rgb * 100))

/-- Canonical HSL lightness of normalized components, as in the spec's
standard RGB→HSL conversion: `(max + min) / 2`. -/
def hslLightness (r g b : ℚ) : ℚ := (max r (max g b) + min r (min g b)) / 2

/-- Canonical HSL saturation of normalized components, as in the spec's
standard RGB→HSL conversion: `0` when achromatic, otherwise
`range/sum` for lightness at most one half and `range/(2 - sum)` above. -/
def hslSaturation (r g b : ℚ) : ℚ :=
  if min r (min g b) = max r (max g b) then 0
  else if (max r (max g b) + min r (min g b)) / 2 ≤ 1/2 then
    (max r (max g b) - min r (min g b)) / (max r (max g b) + min r (min g b))
  else
    (max r (max g b) - min r (min g b)) / (2 - (max r (max g b) + min r (min g b)))

/-- A glyph table: the function `font` from `data.py` (not part of
`src/`), giving each character its 8-row pixel pattern. -/
abbrev Font := Char → List (List Bool)

/-- The width `len(font(char)[0])` of a character's pixel pattern
(`ColorWallpaper.py` line 151). -/
def patternWidth (font : Font) (c : Char) : ℕ := ((font c).headD []).length

/-- `text_length = sum(len(font(char)[0]) for char in text) - 1`
(`ColorWallpaper.py` line 151); an integer, since it is `-1` when `text`
is empty. -/
def text_length (font : Font) (text : List Char) : ℤ :=
  ((text.map (patternWidth font)).sum : ℤ) - 1

/-- The size of the bitmap allocated by `Wallpaper.__generate_text`
(`ColorWallpaper.py` line 152): `Image.new('RGBA', (text_length, 8), ...)`.
PIL raises `ValueError` on a negative dimension, modelled by `none`. -/
def generate_text_size (font : Font) (text : List Char) : Option (ℤ × ℤ) :=
  if text_length font text < 0 then none else some (text_length font text, 8)

/-- The value of the loop variable `x` after the nested paint loops of
`Wallpaper.__generate_text` (lines 159-162) run over one pixel map: a
non-empty row leaves `x` at its width minus one, an empty row leaves `x`
unchanged. -/
def xAfterRows (pm : List (List Bool)) (x : ℕ) : ℕ :=
  pm.foldl (fun x row => if row.length = 0 then x else row.length - 1) x

/-- Helper for `paintOffsets`: the loop of `Wallpaper.__generate_text`
(lines 156-164) carrying the current `offset` and `x`, recording the
offset at which each character is painted; after painting a character the
code runs `offset += x + 1`. -/
def paintOffsetsAux (font : Font) : List Char → ℕ → ℕ → List ℕ
  | [], _, _ => []
  | c :: rest, offset, x =>
    offset :: paintOffsetsAux font rest (offset + xAfterRows (font c) x + 1)
      (xAfterRows (font c) x)

/-- The horizontal offsets at which `Wallpaper.__generate_text` paints the
successive characters of `text`; both `offset` and `x` start at 0
(lines 153-154). -/
def paintOffsets (font : Font) (text : List Char) : List ℕ :=
  paintOffsetsAux font text 0 0

/-- Modelled from the spec: the glyph width of a character, i.e. the
visible width of its glyph.  `data.py` is not part of `src/`; per the
spec the rasterizer leaves one blank pixel column between characters,
while the code lays patterns back to back and advances by the full
pattern width, so each `font` pattern carries its one-pixel spacer as a
trailing blank column and the glyph width is the pattern width minus
one. -/
def glyphWidth (font : Font) (c : Char) : ℕ := patternWidth font c - 1

/-- Paint offsets as the spec describes them: starting from `o`, each
character advances the horizontal offset by its glyph width plus one. -/
def specOffsets (font : Font) : List Char → ℕ → List ℕ
  | [], _ => []
  | c :: rest, o => o :: specOffsets font rest (o + glyphWidth font c + 1)

/-- `decor_size = 128 * max(round(smaller / 4 / 128), 1)` with
`smaller = min(self.resolution)` (`ColorWallpaper.py` lines 215-216). -/
def decor_size (resolution : ℕ × ℕ) : ℤ :=
  128 * max (pyRound ((min resolution.1 resolution.2 : ℚ) / 4 / 128)) 1

/-- The centring offset at which the scaled badge is composited
(`ColorWallpaper.py` lines 221-222), with Python's floor division. -/
def center_offset (resolution : ℕ × ℕ) : ℤ × ℤ :=
  (Int.fdiv ((resolution.1 : ℤ) - decor_size resolution) 2,
   Int.fdiv ((resolution.2 : ℤ) - decor_size resolution) 2)

/-- `name.rsplit(' ', 1)` destructured into two pieces
(`ColorWallpaper.py` line 180): the string is split at its last space;
`none` models the `ValueError` of unpacking when there is no space. -/
def rsplitLastSpace : List Char → Option (List Char × List Char)
  | [] => none
  | c :: rest =>
    match rsplitLastSpace rest with
    | some (a, b) => some (c :: a, b)
    | none => if c = ' ' then some ([], rest) else none

/-- The name-placement part of `Wallpaper.__generate_decoration`
(`ColorWallpaper.py` lines 174-183): the `(text, x, y)` composites of the
color name and the vertical cursor `y` left for the format rows.  The
code sets `x, y = name.size` (so `y = 8`), composites the whole name at
`(8, y)` when `x <= 112`, and otherwise composites the two `rsplit`
halves at `(8, y)` and `(8, y + 12)`.  `none` models an exception: a
negative bitmap width, or the unpacking of `rsplit` on a spaceless
name. -/
def generate_decoration_name (font : Font) (name : List Char) :
    Option (List (List Char × ℤ × ℤ) × ℤ) :=
  match generate_text_size font name with
  | none => none
  | some (x, y) =>
    if x ≤ 112 then some ([(name, 8, y)], y)
    else
      match rsplitLastSpace name with
      | none => none
      | some (t1, t2) =>
        match generate_text_size font t1, generate_text_size font t2 with
        | some _, some _ => some ([(t1, 8, y), (t2, 8, y + 12)], y + 12)
        | _, _ => none

/-- One hexadecimal digit, lowercase or uppercase. -/
def hexDigit (lower : Bool) (n : ℕ) : Char :=
  if n < 10 then Char.ofNat (48 + n)
  else if lower then Char.ofNat (87 + n)
  else Char.ofNat (55 + n)

/-- Python's 02x / 02X format of a byte (`ColorWallpaper.py` line 185):
two hex digits, zero padded, for `n ≤ 255`. -/
def hex2 (lower : Bool) (n : ℕ) : List Char :=
  [hexDigit lower (n / 16), hexDigit lower (n % 16)]

/-- `' '.join(...)` of rendered components. -/
def joinSpace (xs : List (List Char)) : List Char :=
  (List.intersperse [' '] xs).flatten

/-- Python's `str` of an integer, as a character list. -/
def strInt (n : ℤ) : List Char := (toString n).toList

/-- Python's `str` of a natural number, as a character list. -/
def strNat (n : ℕ) : List Char := (toString n).toList

/-- The `rows` dictionary of `Wallpaper.__generate_decoration`
(`ColorWallpaper.py` lines 185-201) as a lookup, built from the
background color `rgb` and the lowercase-hex flag.  Every entry is total
except that the `cmyk` entry propagates the checked division of
`Color.cmyk` (which in fact never fails). -/
def rowsDict (rgb : RGB) (lower : Bool) (key : List Char) :
    Option (List Char × List Char) :=
  if key = "hex".toList then
    some ("HEX ".toList, hex2 lower rgb.1 ++ hex2 lower rgb.2.1 ++ hex2 lower rgb.2.2)
  else if key = "#hex".toList then
    some ("HEX ".toList,
      '#' :: (hex2 lower rgb.1 ++ hex2 lower rgb.2.1 ++ hex2 lower rgb.2.2))
  else if key = "rgb".toList then
    some ("RGB ".toList, joinSpace [strNat rgb.1, strNat rgb.2.1, strNat rgb.2.2])
  else if key = "hsv".toList then
    some ("HSV ".toList,
      joinSpace [strInt (Color.hsv rgb).1, strInt (Color.hsv rgb).2.1,
        strInt (Color.hsv rgb).2.2])
  else if key = "hsl".toList then
    some ("HSL ".toList,
      joinSpace [strInt (Color.hsl rgb).1, strInt (Color.hsl rgb).2.1,
        strInt (Color.hsl rgb).2.2])
  else if key = "cmyk".toList then
    (Color.cmyk rgb).map (fun q =>
      ("CMYK ".toList,
        joinSpace [strInt q.1, strInt q.2.1, strInt q.2.2.1, strInt q.2.2.2]))
  else if key = "empty".toList then some (" ".toList, " ".toList)
  else none

/-- The per-format row loop of `Wallpaper.__generate_decoration`
(`ColorWallpaper.py` lines 203-208): starting from the vertical cursor
left by the name placement, each format key advances `y` by 12,
composites its label at `x = 8` and its value at
`x = 3 + 5 + label.size[0]`.  `none` models an exception (unknown key or
a failed text rasterization). -/
def formatRows (font : Font) (rows : List Char → Option (List Char × List Char)) :
    List (List Char) → ℤ → Option (List (List Char × ℤ × ℤ))
  | [], _ => some []
  | key :: rest, y =>
    match rows key with
    | none => none
    | some lv =>
      match generate_text_size font lv.1, generate_text_size font lv.2 with
      | some labSize, some _ =>
        match formatRows font rows rest (y + 12) with
        | none => none
        | some restOps =>
          some ((lv.1, 8, y + 12) :: (lv.2, 3 + 5 + labSize.1, y + 12) :: restOps)
      | _, _ => none

/-- The lowercase hex key of an RGB triple, as built by
`''.join(...)` over the 02x-formatted channels (`ColorWallpaper.py`
line 58). -/
def rgbHexKey (rgb : RGB) : List Char :=
  hex2 true rgb.1 ++ hex2 true rgb.2.1 ++ hex2 true rgb.2.2

/-- Modelled from the spec: the reverse lookup table `hex_to_color` of
`data.py` (not part of `src/`), mapping the 6-digit lowercase hex string
of each named color to its name; an arbitrary association list. -/
abbrev HexTable := List (List Char × List Char)

/-- `inverted_color` (`ColorWallpaper.py` lines 56-58): the channel-wise
inversion `255 - x` of a validated 8-bit source triple, paired with the
name `hex_to_color.get(hex)` — an `Option`, because `dict.get` with no
default argument returns `None` on a missing key. -/
def inverted_color (hex_to_color : HexTable) (source : RGB) :
    RGB × Option (List Char) :=
  ((255 - source.1, 255 - source.2.1, 255 - source.2.2),
   hex_to_color.lookup
     (rgbHexKey (255 - source.1, 255 - source.2.1, 255 - source.2.2)))

/-- Python's `int(...)` applied to a string: `none` models the raised
`ValueError`.  All strings this development applies it to are
whitespace-free and unsigned, so only the all-digits form parses. -/
def pyIntOfString (s : List Char) : Option ℕ :=
  if s ≠ [] ∧ s.all Char.isDigit then
    some (s.foldl (fun n c => 10 * n + (c.toNat - 48)) 0)
  else none

/-- A character of the regex class of `hex_re`: a digit or a hex letter in
either case (the regex is compiled with `re.I`). -/
def isHexDigitChar (c : Char) : Bool :=
  c.isDigit || ('a' ≤ c && c ≤ 'f') || ('A' ≤ c && c ≤ 'F')

/-- Whether `hex_re` (`ColorWallpaper.py` line 14) fullmatches a
whitespace-free string: an optional `#` followed by exactly 6 or exactly
3 hex digits. -/
def hexMatches : List Char → Bool
  | '#' :: t => (t.length = 6 || t.length = 3) && t.all isHexDigitChar
  | t => (t.length = 6 || t.length = 3) && t.all isHexDigitChar

/-- The digit group captured by `hex_re`: the input without its optional
leading `#`. -/
def hexGroup1 : List Char → List Char
  | '#' :: t => t
  | t => t

/-- The value of one hex digit. -/
def hexCharVal (c : Char) : ℕ :=
  if c.isDigit then c.toNat - 48
  else if 'a' ≤ c ∧ c ≤ 'f' then c.toNat - 87
  else c.toNat - 55

/-- `int(s, 16)` on a run of hex digits. -/
def hexValue (s : List Char) : ℕ := s.foldl (fun n c => 16 * n + hexCharVal c) 0

/-- `parse_hex` (`ColorWallpaper.py` lines 26-28): the captured digit
group is cut into three equal slices `arg[le//3*i : le//3*(i+1)]`, each
read in base 16. -/
def parse_hex (s : List Char) : RGB :=
  (hexValue ((s.drop (s.length / 3 * 0)).take (s.length / 3)),
   hexValue ((s.drop (s.length / 3 * 1)).take (s.length / 3)),
   hexValue ((s.drop (s.length / 3 * 2)).take (s.length / 3)))

/-- Split a character list at every comma (no merging of empty pieces),
as the separator structure of `rgb_re`. -/
def splitOnComma : List Char → List (List Char)
  | [] => [[]]
  | c :: rest =>
    if c = ',' then [] :: splitOnComma rest
    else
      match splitOnComma rest with
      | [] => [[c]]
      | g :: gs => (c :: g) :: gs

/-- Whether `rgb_re` (`ColorWallpaper.py` line 15) fullmatches a
whitespace-free string, and its three capture groups: three non-empty
digit runs separated by commas. -/
def rgbMatchGroups (s : List Char) : Option (List Char × List Char × List Char) :=
  match splitOnComma s with
  | [a, b, c] =>
    if a ≠ [] ∧ b ≠ [] ∧ c ≠ [] ∧ a.all Char.isDigit ∧ b.all Char.isDigit ∧
        c.all Char.isDigit then
      some (a, b, c)
    else none
  | _ => none

/-- The `color` argument parser (`ColorWallpaper.py` lines 30-54)
restricted to whitespace-free inputs and to its hex and `R,G,B` branches
(the final color-name branch needs the tables of `data.py`; no input of
those first two branches reaches it).  `none` models a raised error —
`argparse.ArgumentTypeError` on out-of-range components, or the uncaught
`ValueError` of `int(...)`.  On an `rgb_re` match the code computes
`int_tuple(rgb_groups.group(0), rgb_groups.group(1), rgb_groups.group(2))`
— the whole match followed by the first two component groups. -/
def parseColorRGB (s : List Char) : Option RGB :=
  if hexMatches s then some (parse_hex (hexGroup1 s))
  else
    match rgbMatchGroups s with
    | none => none
    | some (g1, g2, _) => do
      let v0 ← pyIntOfString s
      let v1 ← pyIntOfString g1
      let v2 ← pyIntOfString g2
      if v0 ≤ 255 ∧ v1 ≤ 255 ∧ v2 ≤ 255 then some (v0, v1, v2) else none

/-- Modelled from the spec: a small concrete glyph table for concrete
evaluations — every pattern has 8 rows of width 3 whose last column is
the blank spacer. -/
def font0 : Font := fun _ => List.replicate 8 [true, true, false]

/-- Modelled from the spec: a concrete glyph table with wide glyphs
(pattern width 30), to exercise the two-line name layout. -/
def fontW : Font := fun _ => List.replicate 8 (List.replicate 29 true ++ [false])

/-- Python's `str.capitalize()`: the first character uppercased, the
rest lowercased. -/
def pyCapitalize : List Char → List Char
  | [] => []
  | c :: rest => c.toUpper :: rest.map Char.toLower

/-- `normalized` (`ColorWallpaper.py` lines 20-21):
`''.join(s.split()).lower()` — all whitespace removed, the rest
lowercased. -/
def normalized (s : List Char) : List Char :=
  (s.filter (fun c => !c.isWhitespace)).map Char.toLower

/-- The name stored in a parsed Color (`ColorWallpaper.py` lines 51-54):
the branch's name key — `None` in the hex and `R,G,B` branches, the
normalized input in the color-name branch — is defaulted to `anonymous`
and passed through `pretty_names.get(name, name.capitalize())`.  The
table `pretty_names` comes from `data.py` and is a parameter. -/
def parsedColorName (pretty_names : List (List Char × List Char))
    (nameKey : Option (List Char)) : List Char :=
  match pretty_names.lookup (nameKey.getD "anonymous".toList) with
  | some pretty => pretty
  | none => pyCapitalize (nameKey.getD "anonymous".toList)

/-- The `color` argument parser (`ColorWallpaper.py` lines 30-54)
including its name assignment, on whitespace-free inputs.  The `data.py`
tables are parameters (modelled from the spec: `color_to_hex` maps a
normalized color name to its hex digits, `pretty_names` a normalized
name to its pretty form).  Returns the rgb triple and the stored name;
`none` models a raised error.  `parseColorRGB` is the restriction of
this function to its first two branches, which never consult the
tables. -/
def colorParserFull (color_to_hex pretty_names : List (List Char × List Char))
    (s : List Char) : Option (RGB × List Char) :=
  if hexMatches s then
    some (parse_hex (hexGroup1 s), parsedColorName pretty_names none)
  else
    match rgbMatchGroups s with
    | some (g1, g2, _) =>
      match pyIntOfString s, pyIntOfString g1, pyIntOfString g2 with
      | some v0, some v1, some v2 =>
        if v0 ≤ 255 ∧ v1 ≤ 255 ∧ v2 ≤ 255 then
          some ((v0, v1, v2), parsedColorName pretty_names none)
        else none
      | _, _, _ => none
    | none =>
      match color_to_hex.lookup (normalized s) with
      | none => none
      | some hx =>
        some (parse_hex hx, parsedColorName pretty_names (some (normalized s)))

theorem rgb_to_hls_lightness (r g b : ℚ) :
    (rgb_to_hls r g b).2.1 = hslLightness r g b := by
  simp only [rgb_to_hls, hslLightness]
  split <;> rfl

theorem rgb_to_hls_saturation (r g b : ℚ) :
    (rgb_to_hls r g b).2.2 = hslSaturation r g b := by
  simp only [rgb_to_hls, hslSaturation]
  split_ifs <;> rfl

/-- C4: `Color.cmyk` is total on all 8-bit RGB triples: when
`k = min(c, m, y, 1)` equals 1 the guard returns `(0, 0, 0, 100)` before
the normalization, so the division by `1 - k` never divides by zero; in
particular `cmyk (0,0,0) = (0,0,0,100)` and
`cmyk (255,255,255) = (0,0,0,0)`. -/
theorem cmyk_total_c4 (r g b : ℕ) (_hr : r ≤ 255) (_hg : g ≤ 255) (_hb : b ≤ 255) :
    (Color.cmyk (r, g, b)).isSome = true
    ∧ (cmykK (r, g, b) = 1 → Color.cmyk (r, g, b) = some (0, 0, 0, 100))
    ∧ Color.cmyk (0, 0, 0) = some (0, 0, 0, 100)
    ∧ Color.cmyk (255, 255, 255) = some (0, 0, 0, 0) := by
  refine ⟨?_, ?_, ?_, ?_⟩
  · unfold Color.cmyk
    by_cases h : cmykK (r, g, b) = 1
    · simp [h]
    · have h2 : ¬((1 : ℚ) - cmykK (r, g, b) = 0) := fun h0 => h (by linarith)
      simp [h, h2]
  · intro h
    unfold Color.cmyk
    simp [h]
  · unfold Color.cmyk cmykK pyTrunc; norm_num
  · unfold Color.cmyk cmykK pyTrunc; norm_num

theorem cmyk_total_c4_witness :
    (Color.cmyk (12, 200, 0)).isSome = true :=
  (cmyk_total_c4 12 200 0 (by norm_num) (by norm_num) (by norm_num)).1

/-- C6: `Color.hsl` presents its result in the order `(h, s, l)`: the
second component is the canonical HSL saturation scaled to percent and
the third the canonical HSL lightness scaled to percent — the `(h, l, s)`
order naturally produced by `rgb_to_hls` is reassigned to the
correctly-named slots, not echoed. -/
theorem hsl_slot_assignment_c6 (r g b : ℕ) :
    Color.hsl (r, g, b) =
      (pyTrunc ((rgb_to_hls ((r : ℚ) / 255) ((g : ℚ) / 255) ((b : ℚ) / 255)).1 * 360),
       pyTrunc (hslSaturation ((r : ℚ) / 255) ((g : ℚ) / 255) ((b : ℚ) / 255) * 100),
       pyTrunc (hslLightness ((r : ℚ) / 255) ((g : ℚ) / 255) ((b : ℚ) / 255) * 100)) := by
  simp only [Color.hsl]
  rw [rgb_to_hls_saturation, rgb_to_hls_lightness]

/-- C7: for resolution (1920, 1080) the badge scale
`128 * max(round(min(resolution)/4/128), 1)` evaluates to 256 and the
centring offset `((1920-256)//2, (1080-256)//2)` to (832, 412). -/
theorem decor_metrics_c7 :
    decor_size (1920, 1080) = 256 ∧ center_offset (1920, 1080) = (832, 412) := by
  have h : decor_size (1920, 1080) = 256 := by unfold decor_size pyRound; norm_num
  refine ⟨h, ?_⟩
  unfold center_offset
  rw [h]
  decide

/-- C8: for every RGB triple with equal channels, the saturation
component of `Color.hsv` and the saturation component of `Color.hsl` are
both 0. -/
theorem achromatic_saturation_c8 (r g b : ℕ) (hrg : r = g) (hgb : g = b) :
    (Color.hsv (r, g, b)).2.1 = 0 ∧ (Color.hsl (r, g, b)).2.1 = 0 := by
  subst hrg
  subst hgb
  constructor
  · simp only [Color.hsv, rgb_to_hsv]
    norm_num [pyTrunc]
  · simp only [Color.hsl, rgb_to_hls]
    norm_num [pyTrunc]

theorem achromatic_saturation_c8_witness :
    (Color.hsv (7, 7, 7)).2.1 = 0 ∧ (Color.hsl (7, 7, 7)).2.1 = 0 :=
  achromatic_saturation_c8 7 7 7 rfl rfl

theorem xAfterRows_const (w : ℕ) (hw : 1 ≤ w) :
    ∀ (pm : List (List Bool)) (x : ℕ), pm ≠ [] →
      (∀ row ∈ pm, row.length = w) → xAfterRows pm x = w - 1 := by
  intro pm
  induction pm with
  | nil => intro x h _; exact absurd rfl h
  | cons r rest ih =>
    intro x _ hrows
    have hr : r.length = w := hrows r (by simp)
    by_cases hrest : rest = []
    · subst hrest
      show (if r.length = 0 then x else r.length - 1) = w - 1
      rw [hr, if_neg (by omega)]
    · have step : xAfterRows (r :: rest) x
          = xAfterRows rest (if r.length = 0 then x else r.length - 1) := rfl
      rw [step]
      exact ih _ hrest (fun row hrow => hrows row (by simp [hrow]))

theorem sum_patternWidth (font : Font) (hw : ∀ c, 1 ≤ patternWidth font c) :
    ∀ s : List Char,
      (s.map (patternWidth font)).sum = (s.map (glyphWidth font)).sum + s.length := by
  intro s
  induction s with
  | nil => simp
  | cons c rest ih =>
    have h1 : patternWidth font c = glyphWidth font c + 1 := by
      have := hw c; unfold glyphWidth; omega
    simp only [List.map_cons, List.sum_cons, List.length_cons, ih, h1]
    omega

theorem paintOffsetsAux_eq_specOffsets (font : Font)
    (h0 : ∀ c, font c ≠ [])
    (hu : ∀ c, ∀ row ∈ font c, row.length = patternWidth font c)
    (hw : ∀ c, 1 ≤ patternWidth font c) :
    ∀ (s : List Char) (o x : ℕ),
      paintOffsetsAux font s o x = specOffsets font s o := by
  intro s
  induction s with
  | nil => intro o x; rfl
  | cons c rest ih =>
    intro o x
    have hx : xAfterRows (font c) x = patternWidth font c - 1 :=
      xAfterRows_const (patternWidth font c) (hw c) (font c) x (h0 c) (hu c)
    show o :: paintOffsetsAux font rest (o + xAfterRows (font c) x + 1)
          (xAfterRows (font c) x)
        = o :: specOffsets font rest (o + glyphWidth font c + 1)
    rw [hx, ih]
    rfl

/-- C1: for every non-empty string the rasterizer allocates a bitmap
whose width is the sum of the glyph widths of the characters plus one
pixel of spacing between any two consecutive characters, and whose
height is 8; and the horizontal offset at which the characters are
painted advances by glyph width + 1 after each character. -/
theorem generate_text_layout_c1 (font : Font)
    (h0 : ∀ c, font c ≠ [])
    (hu : ∀ c, ∀ row ∈ font c, row.length = patternWidth font c)
    (hw : ∀ c, 1 ≤ patternWidth font c)
    (s : List Char) (hs : s ≠ []) :
    generate_text_size font s
        = some ((((s.map (glyphWidth font)).sum : ℤ) + ((s.length : ℤ) - 1)), 8)
    ∧ paintOffsets font s = specOffsets font s 0 := by
  have hsum := sum_patternWidth font hw s
  have hlen : 1 ≤ s.length := List.length_pos.mpr hs
  constructor
  · unfold generate_text_size text_length
    rw [hsum, if_neg (by omega)]
    have hcast : ((((s.map (glyphWidth font)).sum + s.length : ℕ) : ℤ) - 1)
        = (((s.map (glyphWidth font)).sum : ℕ) : ℤ) + ((s.length : ℤ) - 1) := by
      omega
    rw [hcast]
  · exact paintOffsetsAux_eq_specOffsets font h0 hu hw s 0 0

theorem generate_text_layout_c1_witness :
    generate_text_size font0 "AB".toList
        = some (((("AB".toList.map (glyphWidth font0)).sum : ℤ)
            + (("AB".toList.length : ℤ) - 1)), 8)
    ∧ paintOffsets font0 "AB".toList = specOffsets font0 "AB".toList 0 :=
  generate_text_layout_c1 font0
    (fun _ => by show List.replicate 8 [true, true, false] ≠ []; decide)
    (fun _ row h => by rw [List.eq_of_mem_replicate h]; rfl)
    (fun _ => by show (1 : ℕ) ≤ 3; norm_num)
    "AB".toList (by decide)

/-- C3 counterexample: rasterizing the empty string computes the total
width `-1`, the allocation is attempted with that negative width and
fails, and no bitmap of width 0 and height 8 is returned. -/
theorem empty_text_c3_counterexample :
    text_length font0 [] = -1 ∧ generate_text_size font0 [] = none
      ∧ generate_text_size font0 [] ≠ some (0, 8) := by decide

/-- C3 amended: for every glyph table, rasterizing the empty string
computes the width `sum(...) - 1 = -1`, so the rasterizer does attempt
to allocate a bitmap of negative width — the allocation raises rather
than return a 0-wide, 8-tall bitmap. -/
theorem empty_text_c3_amended (font : Font) :
    text_length font [] = -1 ∧ generate_text_size font [] = none := by
  constructor
  · norm_num [text_length]
  · norm_num [generate_text_size, text_length]

theorem rsplitLastSpace_none_no_space :
    ∀ l : List Char, rsplitLastSpace l = none → ' ' ∉ l := by
  intro l
  induction l with
  | nil => intro _; simp
  | cons c rest ih =>
    intro h
    simp only [rsplitLastSpace] at h
    cases hr : rsplitLastSpace rest with
    | some p =>
      obtain ⟨a, b⟩ := p
      rw [hr] at h
      simp at h
    | none =>
      rw [hr] at h
      split_ifs at h with hc
      intro hmem
      rcases List.mem_cons.mp hmem with h1 | h2
      · exact hc h1.symm
      · exact ih hr h2

theorem rsplitLastSpace_splits :
    ∀ l a b : List Char, rsplitLastSpace l = some (a, b) →
      l = a ++ ' ' :: b ∧ ' ' ∉ b := by
  intro l
  induction l with
  | nil => intro a b h; simp [rsplitLastSpace] at h
  | cons c rest ih =>
    intro a b h
    simp only [rsplitLastSpace] at h
    cases hr : rsplitLastSpace rest with
    | some p =>
      obtain ⟨a', b'⟩ := p
      rw [hr] at h
      simp only [Option.some.injEq, Prod.mk.injEq] at h
      obtain ⟨ha, hb⟩ := h
      obtain ⟨hrest, hnb⟩ := ih a' b' hr
      subst ha
      subst hb
      exact ⟨by rw [hrest]; rfl, hnb⟩
    | none =>
      rw [hr] at h
      split_ifs at h with hc
      simp only [Option.some.injEq, Prod.mk.injEq] at h
      obtain ⟨ha, hb⟩ := h
      subst ha
      subst hb
      subst hc
      exact ⟨rfl, rsplitLastSpace_none_no_space rest hr⟩

theorem generate_text_size_some (font : Font) (t : List Char) (x y : ℤ)
    (h : generate_text_size font t = some (x, y)) :
    x = text_length font t ∧ y = 8 ∧ 0 ≤ text_length font t := by
  unfold generate_text_size at h
  split_ifs at h with hneg
  simp only [Option.some.injEq, Prod.mk.injEq] at h
  exact ⟨h.1.symm, h.2.symm, by omega⟩

/-- C5: when the rendered color name fits in 112 pixels it is composited
as a single line at x = 8; when it is wider and contains a space, the
name is split at its last space character (so the second piece is
space-free), the first line is composited at x = 8 and the second line
12 pixels below it. -/
theorem name_layout_c5 (font : Font) (name : List Char) :
    (∀ x y, generate_text_size font name = some (x, y) → x ≤ 112 →
        generate_decoration_name font name = some ([(name, 8, 8)], 8))
    ∧ (∀ x y t1 t2, generate_text_size font name = some (x, y) → 112 < x →
        rsplitLastSpace name = some (t1, t2) →
        0 ≤ text_length font t1 → 0 ≤ text_length font t2 →
        generate_decoration_name font name
            = some ([(t1, 8, 8), (t2, 8, 8 + 12)], 8 + 12)
          ∧ name = t1 ++ ' ' :: t2 ∧ ' ' ∉ t2) := by
  constructor
  · intro x y h hx
    obtain ⟨hxe, hye, _⟩ := generate_text_size_some font name x y h
    subst hxe
    subst hye
    simp only [generate_decoration_name, h]
    rw [if_pos hx]
  · intro x y t1 t2 h hx hsplit h1 h2
    obtain ⟨hxe, hye, _⟩ := generate_text_size_some font name x y h
    subst hxe
    subst hye
    have e1 : generate_text_size font t1 = some (text_length font t1, 8) := by
      unfold generate_text_size
      rw [if_neg (not_lt.mpr h1)]
    have e2 : generate_text_size font t2 = some (text_length font t2, 8) := by
      unfold generate_text_size
      rw [if_neg (not_lt.mpr h2)]
    refine ⟨?_, rsplitLastSpace_splits name t1 t2 hsplit⟩
    simp only [generate_decoration_name, h, hsplit, e1, e2]
    rw [if_neg (not_le.mpr hx)]

theorem name_layout_c5_witness :
    generate_decoration_name fontW "AB C".toList
        = some ([("AB".toList, 8, 8), ("C".toList, 8, 8 + 12)], 8 + 12)
      ∧ "AB C".toList = "AB".toList ++ ' ' :: "C".toList
      ∧ ' ' ∉ "C".toList :=
  (name_layout_c5 fontW "AB C".toList).2 119 8 "AB".toList "C".toList
    (by decide) (by decide) (by decide) (by decide) (by decide)

/-- The amended row-placement property: the composites produced by the
format-row loop come in label/value pairs sharing a row, the label at
x = 8 and the value at x = 3 + 5 + labelWidth, i.e. 8 + labelWidth from
the left edge. -/
def rowsWellPlaced (font : Font) : List (List Char × ℤ × ℤ) → Bool
  | [] => true
  | (lab, lx, ly) :: (_, vx, vy) :: rest =>
    lx == 8 && vx == 3 + 5 + text_length font lab && vy == ly
      && rowsWellPlaced font rest
  | _ => false

/-- C2 counterexample: in the hex row of the badge built for background
color (255, 2, 141), the label "HEX " has rendered width 11 and the
value "FF028D" is composited at x = 3 + 5 + 11 = 19, not at
16 + 11 = 27 as the claim computes. -/
theorem row_value_x_c2_counterexample :
    formatRows font0 (rowsDict (255, 2, 141) false) ["hex".toList] 8
        = some [("HEX ".toList, 8, 20), ("FF028D".toList, 19, 20)]
      ∧ text_length font0 "HEX ".toList = 11
      ∧ (19 : ℤ) ≠ 16 + text_length font0 "HEX ".toList := by decide

/-- C2 amended: in every format row the label is composited at x = 8 and
the value at x = 3 + 5 + labelWidth = 8 + labelWidth — not at
8 + 5 + labelWidth + 3. -/
theorem row_value_x_c2_amended (font : Font)
    (rows : List Char → Option (List Char × List Char)) :
    ∀ (formats : List (List Char)) (y : ℤ) (ops : List (List Char × ℤ × ℤ)),
      formatRows font rows formats y = some ops →
      rowsWellPlaced font ops = true := by
  intro formats
  induction formats with
  | nil =>
    intro y ops h
    simp only [formatRows, Option.some.injEq] at h
    subst h
    rfl
  | cons key rest ih =>
    intro y ops h
    simp only [formatRows] at h
    cases hk : rows key with
    | none =>
      rw [hk] at h
      exact Option.noConfusion h
    | some lv =>
      simp only [hk] at h
      cases e1 : generate_text_size font lv.1 with
      | none =>
        simp only [e1] at h
        exact Option.noConfusion h
      | some labSize =>
        cases e2 : generate_text_size font lv.2 with
        | none =>
          simp only [e1, e2] at h
          exact Option.noConfusion h
        | some vSize =>
          simp only [e1, e2] at h
          cases er : formatRows font rows rest (y + 12) with
          | none =>
            rw [er] at h
            exact Option.noConfusion h
          | some restOps =>
            simp only [er, Option.some.injEq] at h
            subst h
            obtain ⟨lx, ly⟩ := labSize
            obtain ⟨hl1, _, _⟩ := generate_text_size_some font lv.1 lx ly e1
            subst hl1
            simp only [rowsWellPlaced, ih (y + 12) restOps er, Bool.and_true]
            simp

theorem row_value_x_c2_witness :
    rowsWellPlaced font0 [("HEX ".toList, 8, 20), ("FF028D".toList, 19, 20)]
        = true :=
  row_value_x_c2_amended font0 (rowsDict (255, 2, 141) false) ["hex".toList] 8
    [("HEX ".toList, 8, 20), ("FF028D".toList, 19, 20)] (by decide)

theorem lookup_some_mem {β : Type} :
    ∀ (l : List (List Char × β)) (k : List Char) (v : β),
      l.lookup k = some v → (k, v) ∈ l := by
  intro l
  induction l with
  | nil => intro k v h; simp [List.lookup] at h
  | cons p rest ih =>
    intro k v h
    obtain ⟨k', v'⟩ := p
    simp only [List.lookup] at h
    cases hbeq : k == k' with
    | true =>
      simp only [hbeq, Option.some.injEq] at h
      subst h
      have hkk : k = k' := by simpa using hbeq
      subst hkk
      exact List.mem_cons_self _ _
    | false =>
      simp only [hbeq] at h
      exact List.mem_cons_of_mem _ (ih k v h)

theorem lookup_none_not_mem {β : Type} :
    ∀ (l : List (List Char × β)) (k : List Char),
      l.lookup k = none → k ∉ l.map Prod.fst := by
  intro l
  induction l with
  | nil => intro k _; simp
  | cons p rest ih =>
    intro k h
    obtain ⟨k', v'⟩ := p
    simp only [List.lookup] at h
    cases hbeq : k == k' with
    | true =>
      simp only [hbeq] at h
      exact Option.noConfusion h
    | false =>
      simp only [hbeq] at h
      intro hmem
      rcases List.mem_cons.mp hmem with h1 | h2
      · have : (k == k') = true := by simp [h1]
        rw [hbeq] at this
        cases this
      · exact ih k h h2

/-- C9 counterexample: defaulting the highlight from background color
(0, 0, 0) yields the inverted triple (255, 255, 255); with a reverse
table that has no entry for "ffffff" the resulting Color's name is None
— neither a color-table name nor the literal "Anonymous". -/
theorem inverted_name_c9_counterexample :
    (inverted_color [("ff028d".toList, "hot pink".toList)] (0, 0, 0)).2 = none
      ∧ (inverted_color [("ff028d".toList, "hot pink".toList)] (0, 0, 0)).2
          ≠ some ("Anonymous".toList)
      ∧ ∀ p ∈ [("ff028d".toList, "hot pink".toList)],
          (inverted_color [("ff028d".toList, "hot pink".toList)] (0, 0, 0)).2
            ≠ some p.2 := by decide

theorem parsedColorName_of_no_key (pretty_names : List (List Char × List Char))
    (hanon : "anonymous".toList ∉ pretty_names.map Prod.fst) :
    parsedColorName pretty_names none = "Anonymous".toList := by
  unfold parsedColorName
  cases h : pretty_names.lookup ((none : Option (List Char)).getD
      "anonymous".toList) with
  | some v =>
    exact absurd (List.mem_map_of_mem Prod.fst (lookup_some_mem _ _ _ h)) hanon
  | none =>
    simp only [h]
    decide

/-- C9 amended: a Color built by the color parser carries a name that is
the literal "Anonymous" (hex and `R,G,B` branches) or is derived from
a color-table key — its pretty-name override when one exists, else the
capitalized table name; the default inverted highlight color's name, by
contrast, is only the reverse hex lookup result: the table name of the
inverted triple when a table entry matches, and None (no name at all,
never "Anonymous") otherwise. -/
theorem inverted_name_c9_amended
    (color_to_hex pretty_names : List (List Char × List Char))
    (hex_to_color : HexTable)
    (hanon : "anonymous".toList ∉ pretty_names.map Prod.fst)
    (s : List Char) (rgb : RGB) (nm : List Char)
    (hparse : colorParserFull color_to_hex pretty_names s = some (rgb, nm))
    (source : RGB) :
    (nm = "Anonymous".toList
      ∨ ∃ k, k ∈ color_to_hex.map Prod.fst
          ∧ ((k, nm) ∈ pretty_names ∨ nm = pyCapitalize k))
    ∧ (((inverted_color hex_to_color source).2 = none
          ∧ rgbHexKey (inverted_color hex_to_color source).1
              ∉ hex_to_color.map Prod.fst)
        ∨ ∃ n, (inverted_color hex_to_color source).2 = some n
            ∧ (rgbHexKey (inverted_color hex_to_color source).1, n)
                ∈ hex_to_color) := by
  constructor
  · unfold colorParserFull at hparse
    split_ifs at hparse with hhex
    · simp only [Option.some.injEq, Prod.mk.injEq] at hparse
      left
      rw [← hparse.2]
      exact parsedColorName_of_no_key pretty_names hanon
    · cases hr : rgbMatchGroups s with
      | some g =>
        obtain ⟨g1, g23⟩ := g
        obtain ⟨g2, g3⟩ := g23
        simp only [hr] at hparse
        cases h0 : pyIntOfString s with
        | none =>
          simp only [h0] at hparse
          exact Option.noConfusion hparse
        | some v0 =>
          cases h1 : pyIntOfString g1 with
          | none =>
            simp only [h0, h1] at hparse
            exact Option.noConfusion hparse
          | some v1 =>
            cases h2 : pyIntOfString g2 with
            | none =>
              simp only [h0, h1, h2] at hparse
              exact Option.noConfusion hparse
            | some v2 =>
              simp only [h0, h1, h2] at hparse
              split_ifs at hparse with hb
              simp only [Option.some.injEq, Prod.mk.injEq] at hparse
              left
              rw [← hparse.2]
              exact parsedColorName_of_no_key pretty_names hanon
      | none =>
        simp only [hr] at hparse
        cases hnl : color_to_hex.lookup (normalized s) with
        | none =>
          simp only [hnl] at hparse
          exact Option.noConfusion hparse
        | some hx =>
          simp only [hnl, Option.some.injEq, Prod.mk.injEq] at hparse
          right
          refine ⟨normalized s,
            List.mem_map_of_mem Prod.fst (lookup_some_mem _ _ _ hnl), ?_⟩
          rw [← hparse.2]
          unfold parsedColorName
          cases hp : pretty_names.lookup ((some (normalized s)).getD
              "anonymous".toList) with
          | some v =>
            simp only [hp]
            exact Or.inl (lookup_some_mem _ _ _ hp)
          | none =>
            simp only [hp]
            exact Or.inr rfl
  · cases h : hex_to_color.lookup
        (rgbHexKey (inverted_color hex_to_color source).1) with
    | none =>
      left
      exact ⟨h, lookup_none_not_mem hex_to_color _ h⟩
    | some n =>
      right
      exact ⟨n, h, lookup_some_mem hex_to_color _ n h⟩

theorem inverted_name_c9_witness :
    ("Hot Pink".toList = "Anonymous".toList
      ∨ ∃ k, k ∈ [("hotpink".toList, "ff028d".toList)].map Prod.fst
          ∧ ((k, "Hot Pink".toList) ∈ [("hotpink".toList, "Hot Pink".toList)]
              ∨ "Hot Pink".toList = pyCapitalize k))
    ∧ (((inverted_color [("ff028d".toList, "hot pink".toList)] (0, 0, 0)).2 = none
          ∧ rgbHexKey
              (inverted_color [("ff028d".toList, "hot pink".toList)] (0, 0, 0)).1
              ∉ [("ff028d".toList, "hot pink".toList)].map Prod.fst)
        ∨ ∃ n, (inverted_color [("ff028d".toList, "hot pink".toList)] (0, 0, 0)).2
              = some n
            ∧ (rgbHexKey
                (inverted_color [("ff028d".toList, "hot pink".toList)] (0, 0, 0)).1,
                n) ∈ [("ff028d".toList, "hot pink".toList)]) :=
  inverted_name_c9_amended
    [("hotpink".toList, "ff028d".toList)]
    [("hotpink".toList, "Hot Pink".toList)]
    [("ff028d".toList, "hot pink".toList)]
    (by decide)
    "hotpink".toList (255, 2, 141) "Hot Pink".toList
    (by decide)
    (0, 0, 0)

/-- C10: the `R,G,B` branch of the color parser is broken.  For the
in-range input "255,2,141" the regex matches with component groups
"255", "2", "141", but the code passes `group(0)` — the whole match —
to `int`, which raises `ValueError`, so the parser rejects the input
instead of returning the triple (255, 2, 141). -/
theorem rgb_parse_c10_bug :
    rgbMatchGroups "255,2,141".toList
        = some ("255".toList, "2".toList, "141".toList)
      ∧ pyIntOfString "255,2,141".toList = none
      ∧ parseColorRGB "255,2,141".toList = none
      ∧ parseColorRGB "255,2,141".toList ≠ some (255, 2, 141) := by decide

end ColorWallpaper
